import Mathlib

/-!
Verification of the cute-dynamo wrapper (src/index.js).

The library exposes two pieces:
* an initialization step (src/index.js lines 36-61) that picks one of two
  credential strategies (Cognito identity pool vs. static access keys, each
  option field falling back to an environment variable) and publishes a
  process-wide client handle, and
* a fluent item accessor (src/index.js lines 72-99):
  table(t).at(k).get() / .put(data), which stores arbitrary values under a
  single string attribute named JSON (JSON.stringify on write, JSON.parse on
  read) and returns null as the absent-marker.

JavaScript values are modelled by the inductive type JSValue; the platform
collaborators (JSON.stringify / JSON.parse, the DynamoDB document client) are
modelled executably: serialization by stringifyV (undefined is dropped,
BigInt throws), parsing by a fuelled recursive-descent parser over the
compact JSON grammar that JSON.stringify emits, and the backend by an
association-list store keyed by (table name, key attributes).
-/

/-- Model of a JavaScript value (the values that flow through get/put).
BigInt is included as a representative value on which JSON.stringify throws
a TypeError, giving the serialization-failure cases a concrete witness. -/
inductive JSValue where
  | undef : JSValue
  | null : JSValue
  | bool (b : Bool) : JSValue
  | num (n : Int) : JSValue
  | str (s : String) : JSValue
  | bigintV (n : Int) : JSValue
  | arr (elems : List JSValue) : JSValue
  | obj (fields : List (String × JSValue)) : JSValue

mutual

/-- Structural (deep) equality of modelled JavaScript values. -/
def beqJ : JSValue → JSValue → Bool
  | .undef, .undef => true
  | .null, .null => true
  | .bool a, .bool b => a == b
  | .num a, .num b => a == b
  | .str a, .str b => a == b
  | .bigintV a, .bigintV b => a == b
  | .arr xs, .arr ys => beqJList xs ys
  | .obj fs, .obj gs => beqJFields fs gs
  | _, _ => false

def beqJList : List JSValue → List JSValue → Bool
  | [], [] => true
  | x :: xs, y :: ys => beqJ x y && beqJList xs ys
  | _, _ => false

def beqJFields : List (String × JSValue) → List (String × JSValue) → Bool
  | [], [] => true
  | (k, v) :: fs, (l, w) :: gs => k == l && beqJ v w && beqJFields fs gs
  | _, _ => false

end

mutual

theorem beqJ_iff : ∀ a b : JSValue, beqJ a b = true ↔ a = b
  | .undef, b => by cases b <;> simp [beqJ]
  | .null, b => by cases b <;> simp [beqJ]
  | .bool a, b => by cases b <;> simp [beqJ]
  | .num a, b => by cases b <;> simp [beqJ]
  | .str a, b => by cases b <;> simp [beqJ]
  | .bigintV a, b => by cases b <;> simp [beqJ]
  | .arr xs, b => by
      cases b <;> simp [beqJ]
      exact beqJList_iff xs _
  | .obj fs, b => by
      cases b <;> simp [beqJ]
      exact beqJFields_iff fs _

theorem beqJList_iff : ∀ xs ys : List JSValue, beqJList xs ys = true ↔ xs = ys
  | [], ys => by cases ys <;> simp [beqJList]
  | x :: xs, ys => by
      cases ys with
      | nil => simp [beqJList]
      | cons y ys =>
          simp [beqJList, Bool.and_eq_true, beqJ_iff x y, beqJList_iff xs ys]

theorem beqJFields_iff : ∀ fs gs : List (String × JSValue), beqJFields fs gs = true ↔ fs = gs
  | [], gs => by cases gs <;> simp [beqJFields]
  | (k, v) :: fs, gs => by
      cases gs with
      | nil => simp [beqJFields]
      | cons g gs =>
          obtain ⟨l, w⟩ := g
          simp [beqJFields, Bool.and_eq_true, beqJ_iff v w, beqJFields_iff fs gs,
            and_assoc]

end

instance : DecidableEq JSValue := fun a b =>
  decidable_of_iff (beqJ a b = true) (beqJ_iff a b)

instance : BEq JSValue := ⟨beqJ⟩

instance : LawfulBEq JSValue where
  eq_of_beq h := (beqJ_iff _ _).mp h
  rfl := (beqJ_iff _ _).mpr rfl

instance {ε α : Type} [DecidableEq ε] [DecidableEq α] : DecidableEq (Except ε α) := fun a b =>
  match a, b with
  | .ok x, .ok y =>
    if h : x = y then .isTrue (by rw [h]) else .isFalse (by simp [h])
  | .error x, .error y =>
    if h : x = y then .isTrue (by rw [h]) else .isFalse (by simp [h])
  | .ok _, .error _ => .isFalse (fun h => Except.noConfusion h)
  | .error _, .ok _ => .isFalse (fun h => Except.noConfusion h)

/-- JavaScript truthiness of a value (used by the conditionals on
src/index.js lines 44, 51, 79, 82, 87). -/
def truthyJS : JSValue → Bool
  | .undef => false
  | .null => false
  | .bool b => b
  | .num n => n != 0
  | .str s => s != ""
  | .bigintV n => n != 0
  | .arr _ => true
  | .obj _ => true

/-- An item / plain JS object: an ordered list of attribute-name/value pairs. -/
abbrev Item := List (String × JSValue)

/-- JS property access item[name]: the first binding, undefined when absent. -/
def getAttr (item : Item) (name : String) : JSValue :=
  match item.find? (fun p => p.1 == name) with
  | none => JSValue.undef
  | some p => p.2

/-- Whether the object has an own property of the given name. -/
def hasAttr (item : Item) (name : String) : Bool :=
  item.any (fun p => p.1 == name)

/-- The object literal of src/index.js lines 88-91: spread the key
attributes, then add the JSON attribute.  When the key itself has a JSON
attribute, the later literal property overwrites its value in place
(JavaScript keeps the original insertion position); otherwise JSON is
appended after the key attributes. -/
def mkPutItem (key : Item) (v : JSValue) : Item :=
  if hasAttr key "JSON" then
    key.map (fun p => if p.1 == "JSON" then ("JSON", v) else p)
  else
    key ++ [("JSON", v)]

/-! ## Decimal and hexadecimal character helpers (number printing/parsing) -/

/-- The decimal digit character for d (d taken mod 10). -/
def digitCh (d : Nat) : Char := Char.ofNat (48 + d % 10)

/-- The lower-case hexadecimal digit character for d (d taken mod 16). -/
def hexCh (d : Nat) : Char :=
  if d % 16 < 10 then Char.ofNat (48 + d % 16) else Char.ofNat (87 + d % 16)

/-- Whether c is a decimal digit character. -/
def isDigitC (c : Char) : Bool := 48 ≤ c.toNat && c.toNat ≤ 57

/-- The numeric value of a decimal digit character. -/
def digitVal (c : Char) : Nat := c.toNat - 48

/-- The numeric value of a hexadecimal digit character, if any. -/
def hexValQ (c : Char) : Option Nat :=
  if 48 ≤ c.toNat ∧ c.toNat ≤ 57 then some (c.toNat - 48)
  else if 97 ≤ c.toNat ∧ c.toNat ≤ 102 then some (c.toNat - 87)
  else if 65 ≤ c.toNat ∧ c.toNat ≤ 70 then some (c.toNat - 55)
  else none

/-- Decimal digit characters of n, most significant first; fuelled so that
the definition is structurally recursive (the fuel used by natChars always
suffices). -/
def natCharsF : Nat → Nat → List Char
  | 0, n => [digitCh n]
  | fuel + 1, n =>
    if n < 10 then [digitCh n] else natCharsF fuel (n / 10) ++ [digitCh (n % 10)]

/-- Decimal digit characters of a natural number, most significant first. -/
def natChars (n : Nat) : List Char := natCharsF n n

/-- Decimal character rendering of an integer (the model of how
JSON.stringify renders the integer-valued numbers that Int models). -/
def intChars (n : Int) : List Char :=
  if n < 0 then '-' :: natChars n.natAbs else natChars n.natAbs

/-- Longest digit prefix of the input, together with the rest. -/
def takeDigits : List Char → List Char × List Char
  | [] => ([], [])
  | c :: rest =>
    if isDigitC c then
      match takeDigits rest with
      | (ds, r) => (c :: ds, r)
    else ([], c :: rest)

/-- Numeric value of a list of decimal digit characters, most significant
first. -/
def digitsVal (ds : List Char) : Nat :=
  ds.foldl (fun a c => 10 * a + digitVal c) 0

/-! ## JSON literal spellings -/

/-- The characters of the null literal. -/
def litNull : List Char := [ 'n', 'u', 'l', 'l' ]

/-- The characters of the true literal. -/
def litTrue : List Char := [ 't', 'r', 'u', 'e' ]

/-- The characters of the false literal. -/
def litFalse : List Char := [ 'f', 'a', 'l', 's', 'e' ]

/-! ## JSON string escaping -/

/-- Escape of one character inside a JSON string literal: quote and
backslash get two-character escapes, control characters a \u00XX escape,
everything else is emitted verbatim. -/
def escChar (c : Char) : List Char :=
  if c = '"' then [ '\\', '"' ]
  else if c = '\\' then [ '\\', '\\' ]
  else if c.toNat < 32 then [ '\\', 'u', '0', '0', hexCh (c.toNat / 16), hexCh (c.toNat % 16) ]
  else [c]

/-- Escape of a character sequence inside a JSON string literal. -/
def escStr : List Char → List Char
  | [] => []
  | c :: cs => escChar c ++ escStr cs

/-! ## The model of JSON.stringify (serializer of src/index.js line 90) -/

mutual

/-- Model of JSON.stringify: .ok none models the undefined result (for a
top-level undefined value), .error models the TypeError thrown on BigInt
values, and .ok (some cs) is the produced text. -/
def stringifyV : JSValue → Except Unit (Option (List Char))
  | .undef => .ok none
  | .bigintV _ => .error ()
  | .null => .ok (some litNull)
  | .bool true => .ok (some litTrue)
  | .bool false => .ok (some litFalse)
  | .num n => .ok (some (intChars n))
  | .str s => .ok (some ('"' :: escStr s.data ++ [ '"' ]))
  | .arr xs =>
    match stringifyElems xs with
    | .error e => .error e
    | .ok cs => .ok (some ('[' :: cs ++ [ ']' ]))
  | .obj fs =>
    match stringifyFields fs with
    | .error e => .error e
    | .ok cs => .ok (some ('{' :: cs ++ [ '}' ]))

/-- Comma-separated serialization of array elements; an element that
serializes to undefined is rendered as null. -/
def stringifyElems : List JSValue → Except Unit (List Char)
  | [] => .ok []
  | [v] =>
    match stringifyV v with
    | .error e => .error e
    | .ok none => .ok litNull
    | .ok (some cs) => .ok cs
  | v :: w :: vs =>
    match stringifyV v, stringifyElems (w :: vs) with
    | .error e, _ => .error e
    | _, .error e => .error e
    | .ok none, .ok rest => .ok (litNull ++ ',' :: rest)
    | .ok (some cs), .ok rest => .ok (cs ++ ',' :: rest)

/-- Comma-separated serialization of object members; a member whose value
serializes to undefined is dropped. -/
def stringifyFields : List (String × JSValue) → Except Unit (List Char)
  | [] => .ok []
  | (k, v) :: fs =>
    match stringifyV v with
    | .error e => .error e
    | .ok none => stringifyFields fs
    | .ok (some cs) =>
      match stringifyFields fs with
      | .error e => .error e
      | .ok [] => .ok ('"' :: escStr k.data ++ '"' :: ':' :: cs)
      | .ok rest => .ok ('"' :: escStr k.data ++ '"' :: ':' :: cs ++ ',' :: rest)

end

/-! ## The reference printer for serializable values -/

mutual

/-- The compact JSON text of a value containing neither undefined nor
BigInt; on serializable values stringifyV produces exactly this text.
The undefined/BigInt cases are arbitrary (they never arise there). -/
def printData : JSValue → List Char
  | .undef => litNull
  | .bigintV _ => litNull
  | .null => litNull
  | .bool true => litTrue
  | .bool false => litFalse
  | .num n => intChars n
  | .str s => '"' :: escStr s.data ++ [ '"' ]
  | .arr xs => '[' :: printElemsD xs ++ [ ']' ]
  | .obj fs => '{' :: printMembersD fs ++ [ '}' ]

def printElemsD : List JSValue → List Char
  | [] => []
  | [v] => printData v
  | v :: w :: vs => printData v ++ ',' :: printElemsD (w :: vs)

def printMembersD : List (String × JSValue) → List Char
  | [] => []
  | [(k, v)] => '"' :: escStr k.data ++ '"' :: ':' :: printData v
  | (k, v) :: fs => '"' :: escStr k.data ++ '"' :: ':' :: printData v ++ ',' :: printMembersD fs

end

mutual

/-- A value is (JSON-)serializable and free of undefined fields: it contains
no undefined and no BigInt anywhere. -/
def goodJson : JSValue → Bool
  | .undef => false
  | .bigintV _ => false
  | .null => true
  | .bool _ => true
  | .num _ => true
  | .str _ => true
  | .arr xs => goodList xs
  | .obj fs => goodFields fs

def goodList : List JSValue → Bool
  | [] => true
  | v :: vs => goodJson v && goodList vs

def goodFields : List (String × JSValue) → Bool
  | [] => true
  | (_, v) :: fs => goodJson v && goodFields fs

end

mutual

/-- Number of parser-function invocations needed to parse the printed form
of a value (the fuel budget of the recursive-descent parser). -/
def jfuel : JSValue → Nat
  | .arr xs => 1 + jfuelE xs
  | .obj fs => 1 + jfuelM fs
  | _ => 1

def jfuelE : List JSValue → Nat
  | [] => 0
  | v :: vs => 1 + jfuel v + jfuelE vs

def jfuelM : List (String × JSValue) → Nat
  | [] => 0
  | (_, v) :: fs => 1 + jfuel v + jfuelM fs

end

/-! ## The model of JSON.parse (deserializer of src/index.js line 82) -/

/-- Consume an expected literal character sequence. -/
def expectChars : List Char → List Char → Option (List Char)
  | [], input => some input
  | _ :: _, [] => none
  | p :: ps, c :: cs => if c = p then expectChars ps cs else none

/-- Parse the body of a JSON string literal (after the opening quote),
returning the decoded characters and the input after the closing quote. -/
def parseStrBody : List Char → Option (List Char × List Char)
  | [] => none
  | c :: rest =>
    if c = '"' then some ([], rest)
    else if c = '\\' then
      match rest with
      | [] => none
      | e :: rest2 =>
        if e = 'u' then
          match rest2 with
          | h1 :: h2 :: h3 :: h4 :: rest3 =>
            match hexValQ h1, hexValQ h2, hexValQ h3, hexValQ h4 with
            | some a, some b, some c2, some d =>
              match parseStrBody rest3 with
              | some (cs, r) => some (Char.ofNat (((a * 16 + b) * 16 + c2) * 16 + d) :: cs, r)
              | none => none
            | _, _, _, _ => none
          | _ => none
        else
          match unescapeCh e with
          | some u =>
            match parseStrBody rest2 with
            | some (cs, r) => some (u :: cs, r)
            | none => none
          | none => none
    else
      match parseStrBody rest with
      | some (cs, r) => some (c :: cs, r)
      | none => none
where
  /-- Decode of a single-character escape sequence. -/
  unescapeCh (e : Char) : Option Char :=
    if e = '"' then some '"'
    else if e = '\\' then some '\\'
    else if e = '/' then some '/'
    else if e = 'n' then some (Char.ofNat 10)
    else if e = 't' then some (Char.ofNat 9)
    else if e = 'r' then some (Char.ofNat 13)
    else if e = 'b' then some (Char.ofNat 8)
    else if e = 'f' then some (Char.ofNat 12)
    else none

/-- One step of the value parser: the element-list and member-list
continuations stand for the recursive calls at the next lower fuel. -/
def parseValStep (pe : List Char → Option (List JSValue × List Char))
    (pm : List Char → Option (List (String × JSValue) × List Char)) :
    List Char → Option (JSValue × List Char)
  | [] => none
  | c :: rest =>
    if c = 'n' then
      match expectChars [ 'u', 'l', 'l' ] rest with
      | some r => some (.null, r)
      | none => none
    else if c = 't' then
      match expectChars [ 'r', 'u', 'e' ] rest with
      | some r => some (.bool true, r)
      | none => none
    else if c = 'f' then
      match expectChars [ 'a', 'l', 's', 'e' ] rest with
      | some r => some (.bool false, r)
      | none => none
    else if c = '"' then
      match parseStrBody rest with
      | some (cs, r) => some (.str (String.mk cs), r)
      | none => none
    else if c = '[' then
      match rest with
      | [] => none
      | c2 :: rest2 =>
        if c2 = ']' then some (.arr [], rest2)
        else
          match pe (c2 :: rest2) with
          | some (xs, r) => some (.arr xs, r)
          | none => none
    else if c = '{' then
      match rest with
      | [] => none
      | c2 :: rest2 =>
        if c2 = '}' then some (.obj [], rest2)
        else
          match pm (c2 :: rest2) with
          | some (fs, r) => some (.obj fs, r)
          | none => none
    else if c = '-' then
      match takeDigits rest with
      | ([], _) => none
      | (ds, r) => some (.num (-(digitsVal ds : Int)), r)
    else if isDigitC c then
      match takeDigits (c :: rest) with
      | (ds, r) => some (.num ((digitsVal ds : Int)), r)
    else none

/-- One step of the element-list parser (a nonempty comma-separated element
list followed by the closing bracket). -/
def parseElemsStep (pv : List Char → Option (JSValue × List Char))
    (pe : List Char → Option (List JSValue × List Char))
    (input : List Char) : Option (List JSValue × List Char) :=
  match pv input with
  | none => none
  | some (v, r) =>
    match r with
    | ',' :: r2 =>
      match pe r2 with
      | some (vs, r3) => some (v :: vs, r3)
      | none => none
    | ']' :: r2 => some ([v], r2)
    | _ => none

/-- One step of the member-list parser (a nonempty comma-separated member
list followed by the closing brace). -/
def parseMembersStep (pv : List Char → Option (JSValue × List Char))
    (pm : List Char → Option (List (String × JSValue) × List Char)) :
    List Char → Option (List (String × JSValue) × List Char)
  | '"' :: rest =>
    match parseStrBody rest with
    | none => none
    | some (kcs, r1) =>
      match r1 with
      | ':' :: r2 =>
        match pv r2 with
        | none => none
        | some (v, r3) =>
          match r3 with
          | ',' :: r4 =>
            match pm r4 with
            | some (ms, r5) => some ((String.mk kcs, v) :: ms, r5)
            | none => none
          | '}' :: r4 => some ([(String.mk kcs, v)], r4)
          | _ => none
      | _ => none
  | _ => none

mutual

/-- Fuelled recursive-descent parser for one JSON value (the compact
grammar emitted by JSON.stringify); returns the value and the rest of the
input.  A none result models the SyntaxError thrown by JSON.parse. -/
def parseVal : Nat → List Char → Option (JSValue × List Char)
  | 0, _ => none
  | fuel + 1, input => parseValStep (parseElems fuel) (parseMembers fuel) input

/-- Fuelled parser for a nonempty element list followed by the closing
bracket. -/
def parseElems : Nat → List Char → Option (List JSValue × List Char)
  | 0, _ => none
  | fuel + 1, input => parseElemsStep (parseVal fuel) (parseElems fuel) input

/-- Fuelled parser for a nonempty member list followed by the closing
brace. -/
def parseMembers : Nat → List Char → Option (List (String × JSValue) × List Char)
  | 0, _ => none
  | fuel + 1, input => parseMembersStep (parseVal fuel) (parseMembers fuel) input

end

/-- Model of JSON.parse: parse one value consuming the whole input; none
models the thrown SyntaxError.  The fuel bound suffices for every input the
printer produces (jfuel v never exceeds the printed length). -/
def jsonParse (s : String) : Option JSValue :=
  match parseVal (s.data.length + 1) s.data with
  | some (v, []) => some v
  | _ => none

/-! ## JS string coercion (JSON.parse coerces a non-string argument) -/

/-- Whether the value is null or undefined (rendered empty inside an array
join). -/
def isNullish : JSValue → Bool
  | .undef => true
  | .null => true
  | _ => false

mutual

/-- Model of JavaScript ToString on the modelled values (arrays join with
commas, plain objects give the "[object Object]" tag). -/
def jsToStr : JSValue → List Char
  | .undef => [ 'u', 'n', 'd', 'e', 'f', 'i', 'n', 'e', 'd' ]
  | .null => litNull
  | .bool true => litTrue
  | .bool false => litFalse
  | .num n => intChars n
  | .str s => s.data
  | .bigintV n => intChars n
  | .arr xs => jsToStrList xs
  | .obj _ => [ '[', 'o', 'b', 'j', 'e', 'c', 't', ' ', 'O', 'b', 'j', 'e', 'c', 't', ']' ]

def jsToStrList : List JSValue → List Char
  | [] => []
  | [v] => if isNullish v then [] else jsToStr v
  | v :: w :: vs => (if isNullish v then [] else jsToStr v) ++ ',' :: jsToStrList (w :: vs)

end

/-- The string JSON.parse receives: a string argument is used as is, any
other argument is coerced with ToString. -/
def jsStringOf : JSValue → String
  | .str s => s
  | v => String.mk (jsToStr v)

/-! ## The credential resolver and client handle (src/index.js lines 36-61) -/

/-- The environment variables the library reads (each possibly unset). -/
structure Env where
  awsRegion : Option String
  awsIdentityPoolId : Option String
  awsAccessKeyId : Option String
  awsSecretAccessKey : Option String
  dynamodbTable : Option String
  deriving DecidableEq

/-- The options object accepted by init; none models an absent (or
undefined) field, which triggers the destructuring default. -/
structure InitOptions where
  region : Option String := none
  identityPoolId : Option String := none
  accessKeyId : Option String := none
  secretAccessKey : Option String := none
  deriving DecidableEq

/-- The two credential variants init can build (src/index.js lines 47-55). -/
inductive Credentials where
  | federated (region : Option String) (identityPoolId : String)
  | staticKeys (accessKeyId : String) (secretAccessKey : String)
  deriving DecidableEq

/-- Whether the credentials are the identity-pool (Federated) variant. -/
def Credentials.isFederated : Credentials → Bool
  | .federated _ _ => true
  | .staticKeys _ _ => false

/-- The error thrown on src/index.js line 57. -/
inductive InitError where
  | insufficientCredentials
  deriving DecidableEq

/-- The DynamoDBDocumentClient handle built on src/index.js line 60. -/
structure Client where
  region : Option String
  credentials : Credentials
  deriving DecidableEq

/-- JavaScript truthiness of a possibly-undefined string (undefined and the
empty string are falsy). -/
def truthyOpt : Option String → Bool
  | none => false
  | some s => s != ""

/-- A destructuring default of src/index.js lines 37-40: an absent or
undefined option field falls back to the environment value. -/
def resolveField (explicit : Option String) (envValue : Option String) : Option String :=
  match explicit with
  | some s => some s
  | none => envValue

/-- The credential decision of init (src/index.js lines 36-61): an
identity-pool id (explicit or from the environment) selects the Federated
variant; otherwise a complete static pair selects the static variant;
otherwise the insufficient-credentials error is thrown. -/
def init (opts : InitOptions) (env : Env) : Except InitError Client :=
  let region := resolveField opts.region env.awsRegion
  let identityPoolId := resolveField opts.identityPoolId env.awsIdentityPoolId
  let accessKeyId := resolveField opts.accessKeyId env.awsAccessKeyId
  let secretAccessKey := resolveField opts.secretAccessKey env.awsSecretAccessKey
  if truthyOpt identityPoolId then
    .ok { region := region, credentials := .federated region (identityPoolId.getD "") }
  else if truthyOpt accessKeyId && truthyOpt secretAccessKey then
    .ok { region := region, credentials := .staticKeys (accessKeyId.getD "") (secretAccessKey.getD "") }
  else
    .error .insufficientCredentials

/-! ## The backend store and the item accessor (src/index.js lines 72-99) -/

/-- The backend table contents: newest-first association list from
(table name, key attributes) to the stored item.  A point write prepends,
so a point read (first match) sees the latest write: the unconditional
overwrite semantics of PutCommand. -/
structure Store where
  items : List ((String × Item) × Item)
  deriving DecidableEq

/-- Backend point read of the item stored under (table, key). -/
def Store.getItem (st : Store) (t : String) (k : Item) : Option Item :=
  match st.items.find? (fun e => e.1 == (t, k)) with
  | some e => some e.2
  | none => none

/-- Backend point write (unconditional overwrite) under (table, key). -/
def Store.putItem (st : Store) (t : String) (k : Item) (item : Item) : Store :=
  ⟨((t, k), item) :: st.items⟩

/-- The whole mutable world of the library: the process-wide client handle
(src/index.js line 4, undefined until init succeeds), the backend store,
and a count of requests that reached the backend. -/
structure DBState where
  client : Option Client
  store : Store
  requests : Nat
  deriving DecidableEq

/-- Running init and publishing the client handle: on success the
process-wide handle is overwritten, on the thrown error it is untouched. -/
def runInit (st : DBState) (opts : InitOptions) (env : Env) : Except InitError Unit × DBState :=
  match init opts env with
  | .ok c => (.ok (), { st with client := some c })
  | .error e => (.error e, st)

/-- The failures a get/put call can surface in the model. -/
inductive OpError where
  | uninitialized
  | serialization
  | parseError
  | backendValidation
  deriving DecidableEq

/-- The write acknowledgment of the backend (the PutCommand output,
returned unchanged by put). -/
inductive Ack where
  | acked
  deriving DecidableEq

/-- The TableName expression of src/index.js lines 79 and 87:
tablename || process.env.DYNAMODB_TABLE. -/
def resolveTable (tablename : Option String) (env : Env) : Option String :=
  if truthyOpt tablename then tablename else env.dynamodbTable

/-- The null result standing for an absent item (src/index.js line 82,
response.Item || null). -/
def absentMarker : JSValue := .null

/-- get of src/index.js lines 76-83.  Accessing .send on the undefined
client handle throws before anything else; the backend rejects a request
whose TableName is missing/empty; an absent item yields null; an item whose
JSON attribute is truthy is deserialized (JSON.parse throws on bad input);
any other item is returned as its raw attribute object. -/
def getOp (st : DBState) (tablename : Option String) (env : Env) (key : Item) :
    Except OpError JSValue × DBState :=
  match st.client with
  | none => (.error .uninitialized, st)
  | some _ =>
    let t := resolveTable tablename env
    let st1 : DBState := { st with requests := st.requests + 1 }
    if truthyOpt t then
      match st1.store.getItem (t.getD "") key with
      | none => (.ok absentMarker, st1)
      | some item =>
        if truthyJS (getAttr item "JSON") then
          match jsonParse (jsStringOf (getAttr item "JSON")) with
          | some v => (.ok v, st1)
          | none => (.error .parseError, st1)
        else (.ok (.obj item), st1)
    else (.error .backendValidation, st1)

/-- put of src/index.js lines 84-93.  Accessing .send on the undefined
client handle throws first; then the PutCommand argument is evaluated, so a
JSON.stringify failure aborts before any request is issued; otherwise the
item {...key, JSON: serialized} is written unconditionally. -/
def putOp (st : DBState) (tablename : Option String) (env : Env) (key : Item)
    (data : JSValue) : Except OpError Ack × DBState :=
  match st.client with
  | none => (.error .uninitialized, st)
  | some _ =>
    let t := resolveTable tablename env
    match stringifyV data with
    | .error _ => (.error .serialization, st)
    | .ok sOpt =>
      let jsonAttr := match sOpt with
        | some cs => JSValue.str (String.mk cs)
        | none => JSValue.undef
      let st1 : DBState := { st with requests := st.requests + 1 }
      if truthyOpt t then
        (.ok .acked,
          { st1 with store := st1.store.putItem (t.getD "") key (mkPutItem key jsonAttr) })
      else (.error .backendValidation, st1)

/-- table(tablename) of src/index.js line 72: captures the table name. -/
structure TableHandle where
  tablename : Option String
  deriving DecidableEq

/-- The handle returned by at(PKorPKSK): captured table name and key. -/
structure AtHandle where
  tablename : Option String
  key : Item
  deriving DecidableEq

/-- The table entry point (src/index.js lines 72-98). -/
def table (tablename : Option String) : TableHandle := ⟨tablename⟩

/-- at of src/index.js line 74: captures the key attributes. -/
def TableHandle.at (tb : TableHandle) (key : Item) : AtHandle :=
  ⟨tb.tablename, key⟩

/-- The fluent get: table(t).at(k).get() run against the world st. -/
def AtHandle.get (h : AtHandle) (env : Env) (st : DBState) :
    Except OpError JSValue × DBState :=
  getOp st h.tablename env h.key

/-- The fluent put: table(t).at(k).put(data) run against the world st. -/
def AtHandle.put (h : AtHandle) (data : JSValue) (env : Env) (st : DBState) :
    Except OpError Ack × DBState :=
  putOp st h.tablename env h.key data

/-! ## Digit and number lemmas -/

theorem isDigitC_ne {c : Char} (h : isDigitC c = true) :
    c ≠ 'n' ∧ c ≠ 't' ∧ c ≠ 'f' ∧ c ≠ '"' ∧ c ≠ '[' ∧ c ≠ '{' ∧ c ≠ '-' ∧
    c ≠ ']' ∧ c ≠ '}' ∧ c ≠ ',' ∧ c ≠ ':' ∧ c ≠ '\\' := by
  refine ⟨?_, ?_, ?_, ?_, ?_, ?_, ?_, ?_, ?_, ?_, ?_, ?_⟩ <;>
    (rintro rfl; revert h; decide)

theorem digitCh_lt (d : Nat) (h : d < 10) : digitCh d = Char.ofNat (48 + d) := by
  unfold digitCh
  rw [Nat.mod_eq_of_lt h]

theorem isDigitC_digitCh (d : Nat) : isDigitC (digitCh d) = true := by
  have h : d % 10 < 10 := Nat.mod_lt _ (by omega)
  unfold digitCh
  set m := d % 10 with hm
  interval_cases m <;> decide

theorem digitVal_digitCh (d : Nat) (h : d < 10) : digitVal (digitCh d) = d := by
  unfold digitCh
  rw [Nat.mod_eq_of_lt h]
  interval_cases d <;> decide

theorem natCharsF_digits : ∀ fuel n, ∀ c ∈ natCharsF fuel n, isDigitC c = true := by
  intro fuel
  induction fuel with
  | zero =>
      intro n c hc
      simp only [natCharsF, List.mem_singleton] at hc
      subst hc
      exact isDigitC_digitCh n
  | succ fuel ih =>
      intro n c hc
      simp only [natCharsF] at hc
      by_cases h : n < 10
      · rw [if_pos h] at hc
        simp only [List.mem_singleton] at hc
        subst hc
        exact isDigitC_digitCh n
      · rw [if_neg h] at hc
        rcases List.mem_append.mp hc with h1 | h2
        · exact ih _ _ h1
        · simp only [List.mem_singleton] at h2
          subst h2
          exact isDigitC_digitCh _

theorem natCharsF_ne_nil : ∀ fuel n, natCharsF fuel n ≠ [] := by
  intro fuel n
  cases fuel with
  | zero => simp [natCharsF]
  | succ fuel =>
      simp only [natCharsF]
      by_cases h : n < 10
      · rw [if_pos h]; simp
      · rw [if_neg h]; simp

theorem natChars_digits : ∀ n, ∀ c ∈ natChars n, isDigitC c = true := by
  intro n
  exact natCharsF_digits n n

theorem natChars_ne_nil (n : Nat) : natChars n ≠ [] := natCharsF_ne_nil n n

theorem digitsVal_append_one (ds : List Char) (c : Char) :
    digitsVal (ds ++ [c]) = 10 * digitsVal ds + digitVal c := by
  unfold digitsVal
  rw [List.foldl_append]
  rfl

theorem digitsVal_natCharsF : ∀ fuel n, n < 10 ^ fuel → digitsVal (natCharsF fuel n) = n := by
  intro fuel
  induction fuel with
  | zero =>
      intro n hn
      simp only [pow_zero, Nat.lt_one_iff] at hn
      subst hn
      simp only [natCharsF]
      show digitsVal [digitCh 0] = 0
      decide
  | succ fuel ih =>
      intro n hn
      simp only [natCharsF]
      by_cases h : n < 10
      · rw [if_pos h]
        show digitsVal [digitCh n] = n
        unfold digitsVal
        simp only [List.foldl_cons, List.foldl_nil]
        rw [Nat.mul_zero, Nat.zero_add, digitVal_digitCh n h]
      · rw [if_neg h]
        rw [digitsVal_append_one]
        have hdiv : n / 10 < 10 ^ fuel := by
          rw [Nat.div_lt_iff_lt_mul (by omega)]
          calc n < 10 ^ (fuel + 1) := hn
          _ = 10 ^ fuel * 10 := by rw [pow_succ]
        rw [ih _ hdiv, digitVal_digitCh _ (Nat.mod_lt _ (by omega))]
        omega

theorem digitsVal_natChars (n : Nat) : digitsVal (natChars n) = n := by
  unfold natChars
  apply digitsVal_natCharsF
  calc n < 2 ^ n := Nat.lt_two_pow n
  _ ≤ 10 ^ n := Nat.pow_le_pow_left (by omega) n

/-- True when the input does not start with a digit (so a digit scan that
ends right before it is maximal). -/
def noDigitHead : List Char → Bool
  | [] => true
  | c :: _ => !(isDigitC c)

theorem takeDigits_append (ds rest : List Char) (hds : ∀ c ∈ ds, isDigitC c = true)
    (hrest : noDigitHead rest = true) : takeDigits (ds ++ rest) = (ds, rest) := by
  induction ds with
  | nil =>
      simp only [List.nil_append]
      cases rest with
      | nil => rfl
      | cons c r =>
          simp only [noDigitHead, Bool.not_eq_true'] at hrest
          simp [takeDigits, hrest]
  | cons d ds ih =>
      have hd : isDigitC d = true := hds d (by simp)
      simp only [List.cons_append, takeDigits, hd, if_pos]
      rw [List.append_eq, ih (fun c hc => hds c (by simp [hc]))]

theorem expectChars_append (ps rest : List Char) : expectChars ps (ps ++ rest) = some rest := by
  induction ps with
  | nil => rfl
  | cons p ps ih => simp [expectChars, ih]

/-! ## String-escape round trip -/

theorem hexValQ_hexCh (d : Nat) (h : d < 16) : hexValQ (hexCh d) = some d := by
  unfold hexCh
  rw [Nat.mod_eq_of_lt h]
  interval_cases d <;> decide

theorem parseStrBody_escStr (cs : List Char) :
    ∀ rest, parseStrBody (escStr cs ++ '"' :: rest) = some (cs, rest) := by
  induction cs with
  | nil =>
      intro rest
      rw [escStr, List.nil_append, parseStrBody.eq_def]
      simp +decide
  | cons c cs ih =>
      intro rest
      by_cases h1 : c = '"'
      · subst h1
        rw [escStr, escChar, if_pos rfl]
        simp only [List.cons_append, List.singleton_append, List.nil_append]
        rw [parseStrBody.eq_def]
        simp +decide [parseStrBody.unescapeCh, ih rest]
      · by_cases h2 : c = '\\'
        · subst h2
          rw [escStr, escChar, if_neg (by decide), if_pos rfl]
          simp only [List.cons_append, List.singleton_append, List.nil_append]
          rw [parseStrBody.eq_def]
          simp +decide [parseStrBody.unescapeCh, ih rest]
        · by_cases h3 : c.toNat < 32
          · have hd3 : hexValQ (hexCh (c.toNat / 16)) = some (c.toNat / 16) :=
              hexValQ_hexCh _ (by omega)
            have hd4 : hexValQ (hexCh (c.toNat % 16)) = some (c.toNat % 16) :=
              hexValQ_hexCh _ (Nat.mod_lt _ (by omega))
            rw [escStr, escChar, if_neg h1, if_neg h2, if_pos h3]
            simp only [List.cons_append, List.nil_append]
            have hd1 : hexValQ (Char.ofNat 48) = some 0 := by decide
            rw [parseStrBody.eq_def]
            simp +decide [hd1, hd3, hd4, ih rest]
            rw [show c.toNat / 16 * 16 + c.toNat % 16 = c.toNat from by omega,
              Char.ofNat_toNat]
          · rw [escStr, escChar, if_neg h1, if_neg h2, if_neg h3]
            simp only [List.cons_append, List.nil_append]
            rw [parseStrBody.eq_def]
            simp [h1, h2, ih rest]

/-! ## Shape facts about the printer -/

theorem natChars_length_pos (n : Nat) : 0 < (natChars n).length :=
  List.length_pos.mpr (natChars_ne_nil n)

theorem intChars_length_pos (n : Int) : 0 < (intChars n).length := by
  unfold intChars
  by_cases h : n < 0
  · rw [if_pos h]; simp
  · rw [if_neg h]; exact natChars_length_pos _

theorem printData_head (v : JSValue) : ∃ c cs, printData v = c :: cs ∧ c ≠ ']' ∧ c ≠ '}' := by
  cases v with
  | undef => exact ⟨'n', _, rfl, by decide, by decide⟩
  | null => exact ⟨'n', _, rfl, by decide, by decide⟩
  | bool b => cases b with
      | true => exact ⟨'t', _, rfl, by decide, by decide⟩
      | false => exact ⟨'f', _, rfl, by decide, by decide⟩
  | num n =>
      show ∃ c cs, intChars n = c :: cs ∧ c ≠ ']' ∧ c ≠ '}'
      unfold intChars
      by_cases h : n < 0
      · rw [if_pos h]; exact ⟨'-', _, rfl, by decide, by decide⟩
      · rw [if_neg h]
        rcases hnc : natChars n.natAbs with _ | ⟨c, cs⟩
        · exact absurd hnc (natChars_ne_nil _)
        · have hd : isDigitC c = true := natChars_digits _ c (by rw [hnc]; simp)
          obtain ⟨-, -, -, -, -, -, -, hne1, hne2, -, -, -⟩ := isDigitC_ne hd
          exact ⟨c, cs, rfl, hne1, hne2⟩
  | str s => exact ⟨'"', _, rfl, by decide, by decide⟩
  | bigintV n => exact ⟨'n', _, rfl, by decide, by decide⟩
  | arr xs => exact ⟨'[', _, rfl, by decide, by decide⟩
  | obj fs => exact ⟨'{', _, rfl, by decide, by decide⟩

theorem jfuel_pos (v : JSValue) : 1 ≤ jfuel v := by
  cases v <;> simp only [jfuel] <;> omega

theorem jfuelE_pos (v : JSValue) (vs : List JSValue) : 1 ≤ jfuelE (v :: vs) := by
  simp only [jfuelE]
  omega

theorem jfuelM_pos (f : String × JSValue) (fs : List (String × JSValue)) :
    1 ≤ jfuelM (f :: fs) := by
  obtain ⟨k, v⟩ := f
  simp only [jfuelM]
  omega

mutual

theorem jfuel_le : ∀ v : JSValue, jfuel v ≤ (printData v).length
  | .undef => by simp [jfuel, printData, litNull]
  | .null => by simp [jfuel, printData, litNull]
  | .bool b => by cases b <;> simp [jfuel, printData, litTrue, litFalse]
  | .num n => by
      have := intChars_length_pos n
      simp only [jfuel]
      show 1 ≤ (intChars n).length
      omega
  | .str s => by simp [jfuel, printData]
  | .bigintV n => by simp [jfuel, printData, litNull]
  | .arr xs => by
      have h := jfuelE_le xs
      simp only [jfuel, printData, List.length_cons, List.length_append,
        List.length_singleton]
      omega
  | .obj fs => by
      have h := jfuelM_le fs
      simp only [jfuel, printData, List.length_cons, List.length_append,
        List.length_singleton]
      omega

theorem jfuelE_le : ∀ vs : List JSValue, jfuelE vs ≤ (printElemsD vs).length + 1
  | [] => by simp [jfuelE, printElemsD]
  | [v] => by
      have h := jfuel_le v
      simp only [jfuelE, printElemsD]
      omega
  | v :: w :: vs => by
      have h1 := jfuel_le v
      have h2 := jfuelE_le (w :: vs)
      simp only [jfuelE] at h2 ⊢
      simp only [printElemsD, List.length_append, List.length_cons]
      omega

theorem jfuelM_le : ∀ fs : List (String × JSValue), jfuelM fs ≤ (printMembersD fs).length + 1
  | [] => by simp [jfuelM, printMembersD]
  | [(k, v)] => by
      have h := jfuel_le v
      simp only [jfuelM, printMembersD, List.length_append, List.length_cons]
      omega
  | (k, v) :: g :: fs => by
      obtain ⟨l, w⟩ := g
      have h1 := jfuel_le v
      have h2 := jfuelM_le ((l, w) :: fs)
      simp only [jfuelM] at h2 ⊢
      simp only [printMembersD, List.length_append, List.length_cons]
      omega

end

theorem printElemsD_head (v : JSValue) (vs : List JSValue) :
    ∃ c cs, printElemsD (v :: vs) = c :: cs ∧ c ≠ ']' ∧ c ≠ '}' := by
  obtain ⟨c, cs, hpd, h1, h2⟩ := printData_head v
  cases vs with
  | nil => exact ⟨c, cs, by rw [printElemsD, hpd], h1, h2⟩
  | cons w vs =>
      refine ⟨c, cs ++ ',' :: printElemsD (w :: vs), ?_, h1, h2⟩
      rw [printElemsD, hpd, List.cons_append]

theorem printMembersD_head (f : String × JSValue) (fs : List (String × JSValue)) :
    ∃ cs, printMembersD (f :: fs) = '"' :: cs := by
  obtain ⟨k, v⟩ := f
  cases fs with
  | nil => exact ⟨_, rfl⟩
  | cons g fs => exact ⟨_, rfl⟩

/-- The printed form of a serializable value parses back to exactly that
value: the mutual induction (on the parser fuel) behind the round-trip law. -/
theorem parse_print_all : ∀ fuel : Nat,
    (∀ v rest, goodJson v = true → jfuel v ≤ fuel → noDigitHead rest = true →
      parseVal fuel (printData v ++ rest) = some (v, rest)) ∧
    (∀ vs rest, goodList vs = true → vs ≠ [] → jfuelE vs ≤ fuel →
      parseElems fuel (printElemsD vs ++ ']' :: rest) = some (vs, rest)) ∧
    (∀ fs rest, goodFields fs = true → fs ≠ [] → jfuelM fs ≤ fuel →
      parseMembers fuel (printMembersD fs ++ '}' :: rest) = some (fs, rest)) := by
  intro fuel
  induction fuel with
  | zero =>
      refine ⟨?_, ?_, ?_⟩
      · intro v rest _ hf _
        exact absurd hf (by have := jfuel_pos v; omega)
      · intro vs rest _ hne hf
        cases vs with
        | nil => exact absurd rfl hne
        | cons v vs => exact absurd hf (by have := jfuelE_pos v vs; omega)
      · intro fs rest _ hne hf
        cases fs with
        | nil => exact absurd rfl hne
        | cons f fs => exact absurd hf (by have := jfuelM_pos f fs; omega)
  | succ fuel ih =>
      obtain ⟨ihV, ihE, ihM⟩ := ih
      refine ⟨?_, ?_, ?_⟩
      · -- parseVal on printData v ++ rest
        intro v rest hgood hf hrest
        cases v with
        | undef => simp [goodJson] at hgood
        | bigintV n => simp [goodJson] at hgood
        | null =>
            show parseVal (fuel + 1) (litNull ++ rest) = some (.null, rest)
            rw [parseVal]
            simp +decide [litNull, parseValStep, expectChars]
        | bool b =>
            cases b with
            | true =>
                show parseVal (fuel + 1) (litTrue ++ rest) = some (.bool true, rest)
                rw [parseVal]
                simp +decide [litTrue, parseValStep, expectChars]
            | false =>
                show parseVal (fuel + 1) (litFalse ++ rest) =
                  some (.bool false, rest)
                rw [parseVal]
                simp +decide [litFalse, parseValStep, expectChars]
        | num n =>
            show parseVal (fuel + 1) (intChars n ++ rest) = some (.num n, rest)
            unfold intChars
            rcases hnc : natChars n.natAbs with _ | ⟨c, cs⟩
            · exact absurd hnc (natChars_ne_nil _)
            have hds : ∀ x ∈ c :: cs, isDigitC x = true := by
              rw [← hnc]; exact natChars_digits _
            have hdc : isDigitC c = true := hds c (by simp)
            obtain ⟨hn1, hn2, hn3, hn4, hn5, hn6, hn7, -, -, -, -, -⟩ := isDigitC_ne hdc
            have htd : takeDigits (c :: (cs ++ rest)) = (c :: cs, rest) := by
              have h0 := takeDigits_append (c :: cs) rest hds hrest
              simpa using h0
            have hdv : digitsVal (c :: cs) = n.natAbs := by
              rw [← hnc]; exact digitsVal_natChars _
            by_cases h : n < 0
            · rw [if_pos h]
              simp only [List.cons_append]
              rw [parseVal]
              simp +decide [parseValStep, htd, hdv]
              rw [abs_of_neg h, neg_neg]
            · rw [if_neg h]
              simp only [List.cons_append]
              rw [parseVal]
              simp [parseValStep, hn1, hn2, hn3, hn4, hn5, hn6, hn7, hdc, htd, hdv]
              omega
        | str s =>
            show parseVal (fuel + 1) (('"' :: escStr s.data ++ [ '"' ]) ++ rest) =
              some (.str s, rest)
            have hps := parseStrBody_escStr s.data rest
            rw [parseVal]
            simp +decide [parseValStep, List.append_assoc, List.singleton_append, hps]
        | arr xs =>
            cases xs with
            | nil =>
                show parseVal (fuel + 1) (('[' :: printElemsD [] ++ [ ']' ]) ++ rest) =
                  some (.arr [], rest)
                rw [printElemsD, parseVal]
                simp +decide [parseValStep]
            | cons v vs =>
                show parseVal (fuel + 1) (('[' :: printElemsD (v :: vs) ++ [ ']' ]) ++ rest) =
                  some (.arr (v :: vs), rest)
                obtain ⟨c2, cs2, hpe, hc2a, hc2b⟩ := printElemsD_head v vs
                have hgE : goodList (v :: vs) = true := by
                  simpa [goodJson] using hgood
                have hfE : jfuelE (v :: vs) ≤ fuel := by
                  simp only [jfuel] at hf; omega
                have hE := ihE (v :: vs) rest hgE (List.cons_ne_nil _ _) hfE
                rw [hpe] at hE ⊢
                simp only [List.cons_append, List.append_assoc, List.singleton_append] at hE ⊢
                rw [parseVal]
                simp +decide [parseValStep, hc2a, hE]
        | obj fs =>
            cases fs with
            | nil =>
                show parseVal (fuel + 1) (('{' :: printMembersD [] ++ [ '}' ]) ++ rest) =
                  some (.obj [], rest)
                rw [printMembersD, parseVal]
                simp +decide [parseValStep]
            | cons f fs =>
                show parseVal (fuel + 1) (('{' :: printMembersD (f :: fs) ++ [ '}' ]) ++ rest) =
                  some (.obj (f :: fs), rest)
                obtain ⟨cs2, hpm⟩ := printMembersD_head f fs
                have hgM : goodFields (f :: fs) = true := by
                  simpa [goodJson] using hgood
                have hfM : jfuelM (f :: fs) ≤ fuel := by
                  simp only [jfuel] at hf; omega
                have hM := ihM (f :: fs) rest hgM (List.cons_ne_nil _ _) hfM
                rw [hpm] at hM ⊢
                simp only [List.cons_append, List.append_assoc, List.singleton_append] at hM ⊢
                rw [parseVal]
                simp +decide [parseValStep, hM]
      · -- parseElems on printElemsD (v :: vs) ++ ']' :: rest
        intro vs rest hgood hne hf
        cases vs with
        | nil => exact absurd rfl hne
        | cons v vs =>
            have hgv : goodJson v = true := by
              simp only [goodList, Bool.and_eq_true] at hgood; exact hgood.1
            cases vs with
            | nil =>
                show parseElems (fuel + 1) (printElemsD [v] ++ ']' :: rest) = some ([v], rest)
                rw [printElemsD]
                have hfv : jfuel v ≤ fuel := by
                  simp only [jfuelE] at hf; omega
                have hV := ihV v (']' :: rest) hgv hfv rfl
                rw [parseElems]
                simp [parseElemsStep, hV]
            | cons w vs =>
                show parseElems (fuel + 1) (printElemsD (v :: w :: vs) ++ ']' :: rest) =
                  some (v :: w :: vs, rest)
                rw [printElemsD]
                have hfv : jfuel v ≤ fuel := by
                  simp only [jfuelE] at hf; omega
                have hfE : jfuelE (w :: vs) ≤ fuel := by
                  simp only [jfuelE] at hf ⊢; omega
                have hgE : goodList (w :: vs) = true := by
                  simp only [goodList, Bool.and_eq_true] at hgood ⊢
                  exact hgood.2
                have hV := ihV v (',' :: (printElemsD (w :: vs) ++ ']' :: rest)) hgv hfv rfl
                have hE := ihE (w :: vs) rest hgE (List.cons_ne_nil _ _) hfE
                rw [parseElems]
                simp only [List.append_assoc, List.cons_append] at hV ⊢
                simp [parseElemsStep, hV, hE]
      · -- parseMembers on printMembersD (f :: fs) ++ '}' :: rest
        intro fs rest hgood hne hf
        cases fs with
        | nil => exact absurd rfl hne
        | cons f fs =>
            obtain ⟨k, v⟩ := f
            have hgv : goodJson v = true := by
              simp only [goodFields, Bool.and_eq_true] at hgood; exact hgood.1
            cases fs with
            | nil =>
                show parseMembers (fuel + 1) (printMembersD [(k, v)] ++ '}' :: rest) =
                  some ([(k, v)], rest)
                rw [printMembersD]
                have hfv : jfuel v ≤ fuel := by
                  simp only [jfuelM] at hf; omega
                have hps := parseStrBody_escStr k.data (':' :: (printData v ++ '}' :: rest))
                have hV := ihV v ('}' :: rest) hgv hfv rfl
                rw [parseMembers]
                simp only [List.append_assoc, List.cons_append] at hps hV ⊢
                simp [parseMembersStep, hps, hV]
            | cons g fs =>
                obtain ⟨l, w⟩ := g
                show parseMembers (fuel + 1)
                    (printMembersD ((k, v) :: (l, w) :: fs) ++ '}' :: rest) =
                  some ((k, v) :: (l, w) :: fs, rest)
                rw [printMembersD]
                have hfv : jfuel v ≤ fuel := by
                  simp only [jfuelM] at hf; omega
                have hfM : jfuelM ((l, w) :: fs) ≤ fuel := by
                  simp only [jfuelM] at hf ⊢; omega
                have hgM : goodFields ((l, w) :: fs) = true := by
                  simp only [goodFields, Bool.and_eq_true] at hgood ⊢
                  exact hgood.2
                have hps := parseStrBody_escStr k.data
                  (':' :: (printData v ++ ',' :: (printMembersD ((l, w) :: fs) ++ '}' :: rest)))
                have hV := ihV v (',' :: (printMembersD ((l, w) :: fs) ++ '}' :: rest)) hgv hfv
                  rfl
                have hM := ihM ((l, w) :: fs) rest hgM (List.cons_ne_nil _ _) hfM
                rw [parseMembers]
                simp only [List.append_assoc, List.cons_append] at hps hV hM ⊢
                simp [parseMembersStep, hps, hV, hM]
                exact fun hcontra => List.noConfusion hcontra

/-- JSON.parse inverts the printer on serializable values. -/
theorem jsonParse_printData (v : JSValue) (h : goodJson v = true) :
    jsonParse (String.mk (printData v)) = some v := by
  unfold jsonParse
  have hfuel : jfuel v ≤ (printData v).length + 1 := by
    have := jfuel_le v
    omega
  have hmain := (parse_print_all ((printData v).length + 1)).1 v [] h hfuel rfl
  rw [List.append_nil] at hmain
  show (match parseVal ((printData v).length + 1) (printData v) with
    | some (w, []) => some w
    | _ => none) = some v
  rw [hmain]

mutual

/-- On serializable values, JSON.stringify returns exactly the reference
printer output. -/
theorem stringifyV_eq_print : ∀ v : JSValue, goodJson v = true →
    stringifyV v = .ok (some (printData v))
  | .undef => by intro h; simp [goodJson] at h
  | .bigintV n => by intro h; simp [goodJson] at h
  | .null => by intro h; rfl
  | .bool true => by intro h; rfl
  | .bool false => by intro h; rfl
  | .num n => by intro h; rfl
  | .str s => by intro h; rfl
  | .arr xs => by
      intro h
      have hE := stringifyElems_eq xs (by simpa [goodJson] using h)
      rw [stringifyV, hE]
      rfl
  | .obj fs => by
      intro h
      have hM := stringifyFields_eq fs (by simpa [goodJson] using h)
      rw [stringifyV, hM]
      rfl

theorem stringifyElems_eq : ∀ vs : List JSValue, goodList vs = true →
    stringifyElems vs = .ok (printElemsD vs)
  | [] => by intro h; rfl
  | [v] => by
      intro h
      have hv : goodJson v = true := by
        simp only [goodList, Bool.and_eq_true] at h; exact h.1
      have hV := stringifyV_eq_print v hv
      rw [stringifyElems, hV, printElemsD]
  | v :: w :: vs => by
      intro h
      have hv : goodJson v = true := by
        simp only [goodList, Bool.and_eq_true] at h; exact h.1
      have hrest : goodList (w :: vs) = true := by
        simp only [goodList, Bool.and_eq_true] at h ⊢
        exact h.2
      have hV := stringifyV_eq_print v hv
      have hE := stringifyElems_eq (w :: vs) hrest
      rw [stringifyElems, hV, hE, printElemsD]

theorem stringifyFields_eq : ∀ fs : List (String × JSValue), goodFields fs = true →
    stringifyFields fs = .ok (printMembersD fs)
  | [] => by intro h; rfl
  | (k, v) :: fs => by
      intro h
      have hv : goodJson v = true := by
        simp only [goodFields, Bool.and_eq_true] at h; exact h.1
      have hrest : goodFields fs = true := by
        simp only [goodFields, Bool.and_eq_true] at h; exact h.2
      have hV := stringifyV_eq_print v hv
      have hM := stringifyFields_eq fs hrest
      conv_lhs => rw [stringifyFields]
      rw [hV, hM]
      cases fs with
      | nil => rfl
      | cons g fs2 =>
          obtain ⟨l, w⟩ := g
          obtain ⟨c, hpm⟩ := printMembersD_head (l, w) fs2
          rw [hpm, printMembersD, hpm]
          exact fun hcontra => List.noConfusion hcontra

end

/-! ## Item and store lemmas -/

theorem getAttr_mkPutItem (key : Item) (v : JSValue) :
    getAttr (mkPutItem key v) "JSON" = v := by
  unfold mkPutItem
  by_cases h : hasAttr key "JSON"
  · rw [if_pos h]
    unfold hasAttr at h
    induction key with
    | nil => simp at h
    | cons p key ih =>
        obtain ⟨name, w⟩ := p
        by_cases hn : name == "JSON"
        · simp only [List.map_cons, hn, if_pos]
          unfold getAttr
          simp [List.find?]
        · simp only [List.any_cons, hn, Bool.false_or] at h
          simp only [List.map_cons, hn, if_neg, Bool.not_eq_true]
          unfold getAttr at ih ⊢
          simp only [List.find?_cons, hn] at ih ⊢
          exact ih h
  · rw [if_neg h]
    unfold hasAttr at h
    induction key with
    | nil => simp [getAttr, List.find?]
    | cons p key ih =>
        obtain ⟨name, w⟩ := p
        simp only [List.any_cons, Bool.or_eq_true, not_or] at h
        unfold getAttr at ih ⊢
        simp only [List.cons_append, List.find?_cons]
        have hn : (name == "JSON") = false := by
          simpa using h.1
        rw [hn]
        exact ih (by simpa using h.2)

theorem Store.getItem_putItem (st : Store) (t : String) (k : Item) (item : Item) :
    (st.putItem t k item).getItem t k = some item := by
  unfold Store.putItem Store.getItem
  simp [List.find?]

theorem truthyJS_printData (v : JSValue) :
    truthyJS (.str (String.mk (printData v))) = true := by
  obtain ⟨c, cs, hpd, -, -⟩ := printData_head v
  show (String.mk (printData v) != "") = true
  rw [hpd]
  simp [bne_iff_ne]
  intro hcontra
  have : (c :: cs : List Char) = [] := congrArg String.data hcontra
  exact List.noConfusion this

theorem jsStringOf_str (s : String) : jsStringOf (.str s) = s := rfl

/-! ## Operation-level helper lemmas -/

/-- A successful put: the acknowledgment is returned and the item
{...key, JSON: serialized} is written over (table, key). -/
theorem putOp_steps (st : DBState) (t : Option String) (env : Env) (k : Item)
    (data : JSValue) (s : List Char)
    (hclient : st.client.isSome = true)
    (htable : truthyOpt (resolveTable t env) = true)
    (hser : stringifyV data = .ok (some s)) :
    ((table t).at k).put data env st =
      (.ok .acked,
        { st with
          requests := st.requests + 1,
          store := st.store.putItem ((resolveTable t env).getD "") k
            (mkPutItem k (.str (String.mk s))) }) := by
  obtain ⟨c, hc⟩ := Option.isSome_iff_exists.mp hclient
  simp only [table, TableHandle.at, AtHandle.put, putOp, hc, hser, htable, if_pos]

/-- A get that finds no stored item returns the absent-marker successfully. -/
theorem getOp_absent (st : DBState) (t : Option String) (env : Env) (k : Item)
    (hclient : st.client.isSome = true)
    (htable : truthyOpt (resolveTable t env) = true)
    (habsent : st.store.getItem ((resolveTable t env).getD "") k = none) :
    ((table t).at k).get env st = (.ok absentMarker, { st with requests := st.requests + 1 }) := by
  obtain ⟨c, hc⟩ := Option.isSome_iff_exists.mp hclient
  simp only [table, TableHandle.at, AtHandle.get, getOp, hc, htable, habsent, if_pos]

/-- put of a serializable value followed by get of the same key round-trips. -/
theorem put_then_get_eq (st : DBState) (t : Option String) (env : Env) (k : Item)
    (v : JSValue)
    (hclient : st.client.isSome = true)
    (htable : truthyOpt (resolveTable t env) = true)
    (hgood : goodJson v = true) :
    (((table t).at k).get env ((((table t).at k).put v env st).2)).1 = .ok v := by
  obtain ⟨c, hc⟩ := Option.isSome_iff_exists.mp hclient
  obtain ⟨tn, htn⟩ : ∃ tn, resolveTable t env = some tn := by
    cases h : resolveTable t env with
    | none => rw [h] at htable; exact absurd htable (by simp [truthyOpt])
    | some tn => exact ⟨tn, rfl⟩
  have hser := stringifyV_eq_print v hgood
  have htr : truthyOpt (some tn) = true := htn ▸ htable
  simp only [table, TableHandle.at, AtHandle.put, AtHandle.get, putOp, getOp, hc, htn,
    hser, htr, if_pos, Option.getD_some]
  simp only [Store.getItem_putItem, getAttr_mkPutItem, truthyJS_printData, if_pos,
    jsStringOf_str, jsonParse_printData v hgood]

/-! ## Concrete fixtures used by the witnesses -/

/-- A concrete environment used by the witnesses. -/
def envW : Env := ⟨some "us-east-1", none, some "AK", some "SK", some "users"⟩

/-- A concrete initialized world (empty store) used by the witnesses. -/
def stW : DBState := ⟨some ⟨some "us-east-1", .staticKeys "AK" "SK"⟩, ⟨[]⟩, 0⟩

/-- A concrete key mapping used by the witnesses. -/
def keyW : Item := [("pk", .str "u1")]

/-- A concrete structured value used by the witnesses. -/
def valW : JSValue := .obj [("name", .str "Ada"), ("age", .num 30)]

/-! ## The claims -/

/-- C1: for every JSON-serializable value v containing no undefined fields
and every key mapping k, on an initialized client with a resolvable table
name, put(v) via table(t).at(k) followed by get() via table(t).at(k) on the
same table returns a value deep-equal (here: equal) to v. -/
theorem roundtrip_put_get (st : DBState) (t : Option String) (env : Env) (k : Item)
    (v : JSValue)
    (hclient : st.client.isSome = true)
    (htable : truthyOpt (resolveTable t env) = true)
    (hgood : goodJson v = true) :
    (((table t).at k).get env ((((table t).at k).put v env st).2)).1 = .ok v :=
  put_then_get_eq st t env k v hclient htable hgood

theorem roundtrip_put_get_witness :
    stW.client.isSome = true ∧ truthyOpt (resolveTable (some "users") envW) = true ∧
    goodJson valW = true ∧
    (((table (some "users")).at keyW).get envW
        ((((table (some "users")).at keyW).put valW envW stW).2)).1 = .ok valW :=
  ⟨by decide, by decide, by decide,
    roundtrip_put_get stW (some "users") envW keyW valW (by decide) (by decide) (by decide)⟩

/-- C2: for every key mapping with no stored item (on an initialized client
with a resolvable table name), get() returns the explicit absent-marker as
a successful result: an Except.ok, not an error, and the marker is null,
not undefined. -/
theorem get_absent_returns_marker (st : DBState) (t : Option String) (env : Env) (k : Item)
    (hclient : st.client.isSome = true)
    (htable : truthyOpt (resolveTable t env) = true)
    (habsent : st.store.getItem ((resolveTable t env).getD "") k = none) :
    (((table t).at k).get env st).1 = .ok absentMarker ∧ absentMarker ≠ .undef := by
  have h := getOp_absent st t env k hclient htable habsent
  refine ⟨?_, by decide⟩
  rw [h]

theorem get_absent_returns_marker_witness :
    stW.client.isSome = true ∧ truthyOpt (resolveTable (some "users") envW) = true ∧
    stW.store.getItem ((resolveTable (some "users") envW).getD "") keyW = none ∧
    ((((table (some "users")).at keyW).get envW stW).1 = .ok absentMarker ∧
      absentMarker ≠ .undef) :=
  ⟨by decide, by decide, by decide,
    get_absent_returns_marker stW (some "users") envW keyW (by decide) (by decide) (by decide)⟩

/-- C3: whenever the resolved configuration (options with environment
fallback) carries a truthy identityPoolId together with a complete truthy
static access-key/secret-key pair, init succeeds choosing the Federated
(identity-pool) credentials, never the static ones. -/
theorem init_both_prefers_federated (opts : InitOptions) (env : Env)
    (hip : truthyOpt (resolveField opts.identityPoolId env.awsIdentityPoolId) = true)
    (_hak : truthyOpt (resolveField opts.accessKeyId env.awsAccessKeyId) = true)
    (_hsk : truthyOpt (resolveField opts.secretAccessKey env.awsSecretAccessKey) = true) :
    ∃ c, init opts env = .ok c ∧ c.credentials.isFederated = true := by
  refine ⟨{ region := resolveField opts.region env.awsRegion,
            credentials := .federated (resolveField opts.region env.awsRegion)
              ((resolveField opts.identityPoolId env.awsIdentityPoolId).getD "") },
    ?_, rfl⟩
  simp only [init, hip, if_pos]

theorem init_both_prefers_federated_witness :
    (truthyOpt (resolveField (some "pool-1") envW.awsIdentityPoolId) = true ∧
      truthyOpt (resolveField none envW.awsAccessKeyId) = true ∧
      truthyOpt (resolveField none envW.awsSecretAccessKey) = true) ∧
    ∃ c, init ⟨some "us-east-1", some "pool-1", none, none⟩ envW = .ok c ∧
      c.credentials.isFederated = true :=
  ⟨⟨by decide, by decide, by decide⟩,
    init_both_prefers_federated ⟨some "us-east-1", some "pool-1", none, none⟩ envW
      (by decide) (by decide) (by decide)⟩

/-- C4: whenever the resolved configuration has no truthy identityPoolId
and no complete truthy static pair, init throws the insufficient-credentials
(configuration) error before any client is built, and the process-wide
client handle is left exactly as it was. -/
theorem init_insufficient_fails (st : DBState) (opts : InitOptions) (env : Env)
    (hip : truthyOpt (resolveField opts.identityPoolId env.awsIdentityPoolId) = false)
    (hstatic : (truthyOpt (resolveField opts.accessKeyId env.awsAccessKeyId) &&
        truthyOpt (resolveField opts.secretAccessKey env.awsSecretAccessKey)) = false) :
    runInit st opts env = (.error .insufficientCredentials, st) := by
  simp only [runInit, init, hip, hstatic, Bool.false_eq_true, if_false]

theorem init_insufficient_fails_witness :
    (truthyOpt (resolveField none (Env.mk (some "us-east-1") none none none none).awsIdentityPoolId)
        = false ∧
      (truthyOpt (resolveField none (Env.mk (some "us-east-1") none none none none).awsAccessKeyId) &&
        truthyOpt (resolveField (some "AK")
          (Env.mk (some "us-east-1") none none none none).awsSecretAccessKey)) = false) ∧
    runInit ⟨none, ⟨[]⟩, 0⟩ ⟨none, none, none, some "AK"⟩
        (Env.mk (some "us-east-1") none none none none) =
      (.error .insufficientCredentials, ⟨none, ⟨[]⟩, 0⟩) :=
  ⟨⟨by decide, by decide⟩,
    init_insufficient_fails ⟨none, ⟨[]⟩, 0⟩ ⟨none, none, none, some "AK"⟩
      (Env.mk (some "us-east-1") none none none none) (by decide) (by decide)⟩

/-- C5: on an initialized client with a resolvable table name, a put of a
serializable payload under a key without a JSON attribute succeeds and the
item written over (table, key) is exactly the caller-supplied key
attributes plus the one string attribute JSON holding the serialization;
the write is an unconditional overwrite (it succeeds and is prepended over
whatever the prior store held). -/
theorem put_writes_key_plus_json (st : DBState) (t : Option String) (env : Env) (k : Item)
    (data : JSValue) (s : List Char)
    (hclient : st.client.isSome = true)
    (htable : truthyOpt (resolveTable t env) = true)
    (hser : stringifyV data = .ok (some s))
    (hk : hasAttr k "JSON" = false) :
    (((table t).at k).put data env st).1 = .ok .acked ∧
    ((((table t).at k).put data env st).2).store =
      st.store.putItem ((resolveTable t env).getD "") k
        (k ++ [("JSON", .str (String.mk s))]) := by
  rw [putOp_steps st t env k data s hclient htable hser]
  refine ⟨rfl, ?_⟩
  show st.store.putItem ((resolveTable t env).getD "") k (mkPutItem k (.str (String.mk s))) = _
  rw [mkPutItem, if_neg (by rw [hk]; exact Bool.false_ne_true)]

theorem put_writes_key_plus_json_witness :
    (stW.client.isSome = true ∧ truthyOpt (resolveTable (some "users") envW) = true ∧
      stringifyV valW = .ok (some (printData valW)) ∧
      hasAttr keyW "JSON" = false) ∧
    ((((table (some "users")).at keyW).put valW envW stW).1 = .ok .acked ∧
      ((((table (some "users")).at keyW).put valW envW stW).2).store =
        stW.store.putItem ((resolveTable (some "users") envW).getD "") keyW
          (keyW ++ [("JSON", .str (String.mk (printData valW)))])) :=
  ⟨⟨by decide, by decide, by decide, by decide⟩,
    put_writes_key_plus_json stW (some "users") envW keyW valW _
      (by decide) (by decide) (by decide) (by decide)⟩

/-- An object without a binding for the name reads as undefined there. -/
theorem getAttr_of_not_hasAttr (item : Item) (name : String)
    (h : hasAttr item name = false) : getAttr item name = .undef := by
  unfold hasAttr at h
  unfold getAttr
  induction item with
  | nil => simp [List.find?]
  | cons p item ih =>
      obtain ⟨n, w⟩ := p
      rw [List.any_cons, Bool.or_eq_false_iff] at h
      have h1 : (n == name) = false := h.1
      simp only [List.find?_cons, h1]
      exact ih h.2

/-- C6: on an initialized client with a resolvable table name, get() of a
stored item that lacks the envelope attribute JSON returns that item's raw
attribute mapping unchanged (as the raw object, no deserialization). -/
theorem get_foreign_item_raw (st : DBState) (t : Option String) (env : Env) (k : Item)
    (item : Item)
    (hclient : st.client.isSome = true)
    (htable : truthyOpt (resolveTable t env) = true)
    (hit : st.store.getItem ((resolveTable t env).getD "") k = some item)
    (hno : hasAttr item "JSON" = false) :
    (((table t).at k).get env st).1 = .ok (.obj item) := by
  obtain ⟨c, hc⟩ := Option.isSome_iff_exists.mp hclient
  have hattr : getAttr item "JSON" = .undef := getAttr_of_not_hasAttr item "JSON" hno
  simp only [table, TableHandle.at, AtHandle.get, getOp, hc, htable, hit, hattr, if_pos,
    truthyJS, Bool.false_eq_true, if_false]

/-- A world whose store holds one item written outside the JSON envelope
convention, used by the C6 witness. -/
def stForeignW : DBState :=
  ⟨some ⟨some "us-east-1", .staticKeys "AK" "SK"⟩,
    ⟨[(("users", keyW), [("pk", .str "u1"), ("score", .num 9)])]⟩, 0⟩

theorem get_foreign_item_raw_witness :
    (stForeignW.client.isSome = true ∧
      truthyOpt (resolveTable (some "users") envW) = true ∧
      stForeignW.store.getItem ((resolveTable (some "users") envW).getD "") keyW =
        some [("pk", .str "u1"), ("score", .num 9)] ∧
      hasAttr [("pk", .str "u1"), ("score", .num 9)] "JSON" = false) ∧
    (((table (some "users")).at keyW).get envW stForeignW).1 =
      .ok (.obj [("pk", .str "u1"), ("score", .num 9)]) :=
  ⟨⟨by decide, by decide, by decide, by decide⟩,
    get_foreign_item_raw stForeignW (some "users") envW keyW
      [("pk", .str "u1"), ("score", .num 9)] (by decide) (by decide) (by decide) (by decide)⟩

/-- C7: a put whose payload cannot be serialized (JSON.stringify throws,
e.g. on a BigInt) fails with the serialization error and the world is
returned unchanged: no request was issued to the backend (the request
counter is untouched) and the store is untouched. -/
theorem put_serialization_failure_no_side_effects (st : DBState) (t : Option String)
    (env : Env) (k : Item) (data : JSValue) (e : Unit)
    (hclient : st.client.isSome = true)
    (hser : stringifyV data = .error e) :
    ((table t).at k).put data env st = (.error .serialization, st) := by
  obtain ⟨c, hc⟩ := Option.isSome_iff_exists.mp hclient
  simp only [table, TableHandle.at, AtHandle.put, putOp, hc, hser]

theorem put_serialization_failure_no_side_effects_witness :
    (stW.client.isSome = true ∧ stringifyV (.bigintV 5) = .error ()) ∧
    ((table (some "users")).at keyW).put (.bigintV 5) envW stW =
      (.error .serialization, stW) :=
  ⟨⟨by decide, by decide⟩,
    put_serialization_failure_no_side_effects stW (some "users") envW keyW (.bigintV 5) ()
      (by decide) (by decide)⟩

/-- C8: before any successful init the client handle is undefined, so both
get() and put(data) fail with the uninitialized-client error (the
null-reference TypeError on accessing .send), not a backend error, and the
world is unchanged: no request reaches the backend. -/
theorem uninitialized_ops_fail (st : DBState) (t : Option String) (env : Env) (k : Item)
    (data : JSValue)
    (hclient : st.client = none) :
    ((table t).at k).get env st = (.error .uninitialized, st) ∧
    ((table t).at k).put data env st = (.error .uninitialized, st) := by
  constructor
  · simp only [table, TableHandle.at, AtHandle.get, getOp, hclient]
  · simp only [table, TableHandle.at, AtHandle.put, putOp, hclient]

theorem uninitialized_ops_fail_witness :
    (DBState.mk none ⟨[]⟩ 0).client = none ∧
    (((table (some "users")).at keyW).get envW ⟨none, ⟨[]⟩, 0⟩ =
        (.error .uninitialized, ⟨none, ⟨[]⟩, 0⟩) ∧
      ((table (some "users")).at keyW).put valW envW ⟨none, ⟨[]⟩, 0⟩ =
        (.error .uninitialized, ⟨none, ⟨[]⟩, 0⟩)) :=
  ⟨rfl, uninitialized_ops_fail ⟨none, ⟨[]⟩, 0⟩ (some "users") envW keyW valW rfl⟩

/-- C9: storing null (envelope attribute "null") makes get() return null,
which is the very same value the interface uses as the absent-marker: the
observation after putting null equals the observation on a state where the
key holds no item at all, so a stored null is indistinguishable from an
absent item at the public interface. -/
theorem stored_null_equals_absent (st stwoW : DBState) (t : Option String) (env : Env)
    (k : Item)
    (hclient : st.client.isSome = true)
    (htable : truthyOpt (resolveTable t env) = true)
    (hclient0 : stwoW.client.isSome = true)
    (habsent : stwoW.store.getItem ((resolveTable t env).getD "") k = none) :
    (((table t).at k).get env ((((table t).at k).put .null env st).2)).1 = .ok absentMarker ∧
    (((table t).at k).get env stwoW).1 = .ok absentMarker := by
  constructor
  · have h := put_then_get_eq st t env k .null hclient htable rfl
    exact h
  · rw [getOp_absent stwoW t env k hclient0 htable habsent]

theorem stored_null_equals_absent_witness :
    (stW.client.isSome = true ∧ truthyOpt (resolveTable (some "users") envW) = true ∧
      stW.store.getItem ((resolveTable (some "users") envW).getD "") keyW = none) ∧
    ((((table (some "users")).at keyW).get envW
        ((((table (some "users")).at keyW).put .null envW stW).2)).1 = .ok absentMarker ∧
      (((table (some "users")).at keyW).get envW stW).1 = .ok absentMarker) :=
  ⟨⟨by decide, by decide, by decide⟩,
    stored_null_equals_absent stW stW (some "users") envW keyW
      (by decide) (by decide) (by decide) (by decide)⟩

/-- C10: when the key mapping itself contains an attribute named JSON, put
silently overwrites it: the stored item's JSON attribute is always the
serialization of the payload, and never the caller's key-supplied value
when that value differs from the serialization. -/
theorem put_overwrites_json_key_attr (st : DBState) (t : Option String) (env : Env)
    (k : Item) (data : JSValue) (s : List Char)
    (hclient : st.client.isSome = true)
    (htable : truthyOpt (resolveTable t env) = true)
    (hser : stringifyV data = .ok (some s))
    (_hk : hasAttr k "JSON" = true) :
    ∃ stored,
      ((((table t).at k).put data env st).2).store.getItem
          ((resolveTable t env).getD "") k = some stored ∧
      getAttr stored "JSON" = .str (String.mk s) ∧
      (getAttr k "JSON" ≠ .str (String.mk s) →
        getAttr stored "JSON" ≠ getAttr k "JSON") := by
  rw [putOp_steps st t env k data s hclient htable hser]
  refine ⟨mkPutItem k (.str (String.mk s)), ?_, getAttr_mkPutItem k _, ?_⟩
  · exact Store.getItem_putItem _ _ _ _
  · intro hne
    rw [getAttr_mkPutItem k _]
    exact fun hcontra => hne hcontra.symm

/-- A key mapping that itself carries a JSON attribute, for the C10
witness. -/
def keyJsonW : Item := [("pk", .str "q"), ("JSON", .str "evil")]

theorem put_overwrites_json_key_attr_witness :
    (stW.client.isSome = true ∧ truthyOpt (resolveTable (some "users") envW) = true ∧
      stringifyV (.num 7) = .ok (some ("7".data)) ∧ hasAttr keyJsonW "JSON" = true) ∧
    ∃ stored,
      ((((table (some "users")).at keyJsonW).put (.num 7) envW stW).2).store.getItem
          ((resolveTable (some "users") envW).getD "") keyJsonW = some stored ∧
      getAttr stored "JSON" = .str (String.mk ("7".data)) ∧
      (getAttr keyJsonW "JSON" ≠ .str (String.mk ("7".data)) →
        getAttr stored "JSON" ≠ getAttr keyJsonW "JSON") :=
  ⟨⟨by decide, by decide, by decide, by decide⟩,
    put_overwrites_json_key_attr stW (some "users") envW keyJsonW (.num 7) _
      (by decide) (by decide) (by decide) (by decide)⟩
